import Mathlib

/-!
Shallow embedding of the classification engine of `brew_scanner.py`.

Strings are modelled as lists of character code points (`List Nat`);
Python's `str.lower()` becomes a charwise map over ASCII codes,
`str.replace(a, b)` with one-character arguments a charwise map,
`str.replace(a, '')` a filter, and Python's substring test `x in y`
an explicit infix check.  Homebrew catalogs, which the source stores as
Python sets and iterates, are modelled as lists so that the iteration
order (left unspecified by Python sets, see the spec's design notes)
is explicit.
-/

/-- A name: a list of character code points, standing for a Python str. -/
abbrev Name := List Nat

/-- ASCII lowercasing of one code point, as Python lowercases ASCII letters. -/
def lowerCp (c : Nat) : Nat := if 65 ≤ c ∧ c ≤ 90 then c + 32 else c

/-- Python `s.lower()` restricted to ASCII: charwise lowercasing. -/
def pyLower (n : Name) : Name := n.map lowerCp

/-- Python `s.replace(' ', '-')`: every space (32) becomes a hyphen (45). -/
def hyphenate (n : Name) : Name := n.map (fun c => if c == 32 then 45 else c)

/-- Python `s.replace('-', '')`: drop every hyphen (45). -/
def stripHyphens (n : Name) : Name := n.filter (fun c => !(c == 45))

/-- Python `s.replace(' ', '')`: drop every space (32). -/
def stripSpaces (n : Name) : Name := n.filter (fun c => !(c == 32))

/-- The normalized key of `check_brew_equivalents`:
`app.name.lower().replace(' ', '-')` (brew_scanner.py line 177). -/
def normKey (n : Name) : Name := hyphenate (pyLower n)

/-- Python substring test `needle in hay` on our code-point lists. -/
def isInfixB (needle : Name) : Name → Bool
  | [] => needle.isEmpty
  | c :: rest => needle.isPrefixOf (c :: rest) || isInfixB needle rest

/-- The four equivalence tests of brew_scanner.py lines 181-183 / 191-193,
applied to one catalog entry and the app's normalized key:
exact equality; hyphen-stripped equality; app key inside catalog name;
catalog name inside app key. -/
def equivTest (entry key : Name) : Bool :=
  pyLower entry == key
  || stripHyphens (pyLower entry) == stripHyphens key
  || isInfixB key (pyLower entry)
  || isInfixB (pyLower entry) key

/-- The three ownership tests of brew_scanner.py lines 132-134, applied to
one cask and the already-lowercased app name. -/
def ownedTest (cask appName : Name) : Bool :=
  pyLower cask == appName
  || stripHyphens (pyLower cask) == stripHyphens appName
  || stripHyphens (pyLower cask) == stripSpaces appName

/-- Python truthiness of an `Optional[bool]`: `None` and `False` are falsy. -/
def truthy : Option Bool → Bool
  | some true => true
  | _ => false

/-- Catalog category of a manager-owned package. -/
inductive BrewType where
  | formula
  | cask
deriving DecidableEq

/-- The `AppInfo` dataclass of brew_scanner.py lines 27-35. -/
structure AppInfo where
  name : Name
  path : Name
  is_brew : Bool
  brew_type : Option BrewType := none
  has_brew_equivalent : Option Bool := none
  brew_equivalent : Option Name := none
  description : Option Name := none
deriving DecidableEq

/-- The body of the per-app loop of `check_brew_equivalents`
(brew_scanner.py lines 174-199): skip manager-owned apps; otherwise search
the cask catalog, then — when the equivalence flag is still falsy — the
formula catalog, taking the first entry passing `equivTest`; finally
default the flag to `False` when it is still falsy. -/
def check_brew_equivalent_one (casks formulae : List Name) (app : AppInfo) : AppInfo :=
  if app.is_brew then app
  else
    let key := normKey app.name
    let app1 :=
      match casks.find? (fun cask => equivTest cask key) with
      | some cask => { app with has_brew_equivalent := some true, brew_equivalent := some cask }
      | none => app
    let app2 :=
      if truthy app1.has_brew_equivalent then app1
      else
        match formulae.find? (fun f => equivTest f key) with
        | some f => { app1 with has_brew_equivalent := some true, brew_equivalent := some f }
        | none => app1
    if truthy app2.has_brew_equivalent then app2
    else { app2 with has_brew_equivalent := some false }

/-- `check_brew_equivalents` (brew_scanner.py lines 170-199): the in-place
loop over the list, one app at a time. -/
def check_brew_equivalents (casks formulae : List Name) : List AppInfo → List AppInfo
  | [] => []
  | app :: rest =>
      check_brew_equivalent_one casks formulae app :: check_brew_equivalents casks formulae rest

/-- The `.app` suffix, `[".", "a", "p", "p"]` as code points. -/
def dotApp : Name := [46, 97, 112, 112]

/-- The `.desktop` suffix as code points. -/
def dotDesktop : Name := [46, 100, 101, 115, 107, 116, 111, 112]

/-- The record built for one `.app` item by `get_applications_macos`
(brew_scanner.py lines 128-142): strip the extension, lowercase for the
three-test cask ownership check, keep the original case for display. -/
def macAppOf (casks : List Name) (dir : Name) (item : Name) : AppInfo :=
  let base := item.take (item.length - 4)
  let app_name := pyLower base
  let is_brew_cask := casks.any fun cask => ownedTest cask app_name
  { name := base
    path := dir ++ 47 :: item
    is_brew := is_brew_cask
    brew_type := if is_brew_cask then some BrewType.cask else none }

/-- The record built for one `.desktop` item by `get_applications_linux`
(brew_scanner.py lines 155-166): strip the extension and test exact
lowercase membership in the formula catalog. -/
def linuxAppOf (formulae : List Name) (dir : Name) (item : Name) : AppInfo :=
  let app_name := item.take (item.length - 8)
  let is_brew_formula := (formulae.map pyLower).contains (pyLower app_name)
  { name := app_name
    path := dir ++ 47 :: item
    is_brew := is_brew_formula
    brew_type := if is_brew_formula then some BrewType.formula else none }

/-- `get_applications_macos` restricted to one directory listing
(brew_scanner.py lines 119-144): keep items ending in `.app` and record
each. -/
def get_applications_macos (casks : List Name) (dir : Name) (items : List Name) : List AppInfo :=
  items.filterMap fun item =>
    if dotApp.isSuffixOf item then some (macAppOf casks dir item) else none

/-- `get_applications_linux` restricted to one directory listing
(brew_scanner.py lines 146-168): keep items ending in `.desktop` and
record each. -/
def get_applications_linux (formulae : List Name) (dir : Name) (items : List Name) : List AppInfo :=
  items.filterMap fun item =>
    if dotDesktop.isSuffixOf item then some (linuxAppOf formulae dir item) else none

/-- The macOS arm of `run_scan` (brew_scanner.py lines 251-270): discover,
then classify equivalents. -/
def scan_macos (casks formulae : List Name) (dir : Name) (items : List Name) : List AppInfo :=
  check_brew_equivalents casks formulae (get_applications_macos casks dir items)

/-- The Linux arm of `run_scan`: discover from desktop entries, then
classify equivalents. -/
def scan_linux (casks formulae : List Name) (dir : Name) (items : List Name) : List AppInfo :=
  check_brew_equivalents casks formulae (get_applications_linux formulae dir items)

/-- The export record built by `export_to_json` (brew_scanner.py
lines 398-405); the timestamp is a parameter, as the engine spec injects it. -/
structure ExportData where
  scan_timestamp : Name
  total_apps : Nat
  brew_managed : Nat
  has_brew_equivalent : Nat
  applications : List AppInfo
deriving DecidableEq

/-- `export_to_json` (brew_scanner.py lines 379-416): the counts and the
full application list, in order. -/
def export_to_json (ts : Name) (apps : List AppInfo) : ExportData :=
  { scan_timestamp := ts
    total_apps := apps.length
    brew_managed := (apps.filter (fun a => a.is_brew)).length
    has_brew_equivalent :=
      (apps.filter (fun a => !a.is_brew && truthy a.has_brew_equivalent)).length
    applications := apps }

/-- The record invariant of the spec's data model: the ownership category is
present exactly when the record is manager-owned, the equivalent name is
present exactly when the equivalence flag is `True`, and no owned record
carries an equivalent name. -/
def invariantB (r : AppInfo) : Bool :=
  (r.brew_type.isSome == r.is_brew)
  && (r.brew_equivalent.isSome == (r.has_brew_equivalent == some true))
  && !(r.is_brew && r.brew_equivalent.isSome)

/-- A concrete non-owned application used by the witnesses: name "c". -/
def appC : AppInfo := { name := [99], path := [], is_brew := false }

/-- A concrete non-owned application used by the witnesses: name "zz". -/
def appZ : AppInfo := { name := [122, 122], path := [], is_brew := false }

/-- A concrete non-owned application with an empty name. -/
def appE : AppInfo := { name := [], path := [], is_brew := false }

/-! Helper lemmas shared by the claim theorems. -/

/-- A manager-owned app is returned untouched by the equivalence pass. -/
theorem check_one_of_brew (casks formulae : List Name) (app : AppInfo)
    (h : app.is_brew = true) : check_brew_equivalent_one casks formulae app = app := by
  simp [check_brew_equivalent_one, h]

/-- Flat characterization of `check_brew_equivalent_one`: skip owned apps,
otherwise first cask match, else (when the incoming flag is falsy) first
formula match, else flag `False`. -/
theorem check_one_spec (casks formulae : List Name) (app : AppInfo) :
    check_brew_equivalent_one casks formulae app =
      if app.is_brew then app
      else
        match casks.find? (fun e => equivTest e (normKey app.name)) with
        | some c => { app with has_brew_equivalent := some true, brew_equivalent := some c }
        | none =>
          if truthy app.has_brew_equivalent then app
          else
            match formulae.find? (fun e => equivTest e (normKey app.name)) with
            | some f => { app with has_brew_equivalent := some true, brew_equivalent := some f }
            | none => { app with has_brew_equivalent := some false } := by
  by_cases hb : app.is_brew
  · simp [check_brew_equivalent_one, hb]
  · rw [Bool.not_eq_true] at hb
    simp only [check_brew_equivalent_one, hb, if_false, Bool.false_eq_true]
    cases hc : casks.find? (fun e => equivTest e (normKey app.name)) with
    | some c => simp [truthy]
    | none =>
      cases ht : truthy app.has_brew_equivalent with
      | true => simp [ht]
      | false =>
        simp only [ht, if_false, Bool.false_eq_true]
        cases hf : formulae.find? (fun e => equivTest e (normKey app.name)) with
        | some f => simp [truthy, hb]
        | none => simp [ht, hb]

/-- The equivalence pass is elementwise: each app is classified on its own. -/
theorem check_equiv_eq_map (casks formulae : List Name) (apps : List AppInfo) :
    check_brew_equivalents casks formulae apps
      = apps.map (check_brew_equivalent_one casks formulae) := by
  induction apps with
  | nil => rfl
  | cons a rest ih => simp [check_brew_equivalents, ih]

/-- Shape of every record produced by macOS discovery. -/
theorem mem_get_macos (casks : List Name) (dir : Name) (items : List Name)
    (r : AppInfo) (h : r ∈ get_applications_macos casks dir items) :
    r.has_brew_equivalent = none ∧ r.brew_equivalent = none
    ∧ r.is_brew = casks.any (fun cask => ownedTest cask (pyLower r.name))
    ∧ r.brew_type = (if r.is_brew then some BrewType.cask else none) := by
  rw [get_applications_macos, List.mem_filterMap] at h
  obtain ⟨item, _, hf⟩ := h
  by_cases hs : dotApp.isSuffixOf item
  · simp only [hs, if_true] at hf
    cases hf
    simp [macAppOf]
  · simp [hs] at hf

/-- Shape of every record produced by Linux discovery. -/
theorem mem_get_linux (formulae : List Name) (dir : Name) (items : List Name)
    (r : AppInfo) (h : r ∈ get_applications_linux formulae dir items) :
    r.has_brew_equivalent = none ∧ r.brew_equivalent = none
    ∧ r.is_brew = (formulae.map pyLower).contains (pyLower r.name)
    ∧ r.brew_type = (if r.is_brew then some BrewType.formula else none) := by
  rw [get_applications_linux, List.mem_filterMap] at h
  obtain ⟨item, _, hf⟩ := h
  by_cases hs : dotDesktop.isSuffixOf item
  · simp only [hs, if_true] at hf
    cases hf
    simp [linuxAppOf]
  · simp [hs] at hf

/-- The empty needle is a Python substring of everything. -/
theorem isInfixB_nil (l : Name) : isInfixB [] l = true := by
  cases l <;> simp [isInfixB, List.isPrefixOf]

/-- Every catalog entry passes the equivalence tests against the empty key. -/
theorem equivTest_nil (e : Name) : equivTest e [] = true := by
  simp [equivTest, isInfixB_nil]

/-- On the empty key, the search over a non-empty catalog returns the head. -/
theorem find?_equivTest_nil (c : Name) (cs : List Name) :
    (c :: cs).find? (fun e => equivTest e []) = some c := by
  simp [List.find?, equivTest_nil]

@[simp] theorem truthy_none : truthy none = false := rfl

@[simp] theorem truthy_some (b : Bool) : truthy (some b) = b := by cases b <;> rfl

/-- C1: for a non-owned app, the equivalence search takes the first cask
entry passing any of the four tests, and falls back to the formula catalog
only when no cask entry matched; hence when both catalogs contain a match
the chosen equivalent is a cask entry. -/
theorem C1_cask_before_formula (casks formulae : List Name) (app : AppInfo)
    (hb : app.is_brew = false) (h0 : app.has_brew_equivalent = none)
    (hbe : app.brew_equivalent = none) :
    (check_brew_equivalent_one casks formulae app).brew_equivalent
      = ((casks.find? (fun e => equivTest e (normKey app.name))).or
         (formulae.find? (fun e => equivTest e (normKey app.name))))
    ∧ (∀ c ∈ casks, equivTest c (normKey app.name) = true →
        ∃ c2 ∈ casks,
          (check_brew_equivalent_one casks formulae app).brew_equivalent = some c2) := by
  rw [check_one_spec]
  simp only [hb, if_false, Bool.false_eq_true, h0, truthy_none]
  cases hc : casks.find? (fun e => equivTest e (normKey app.name)) with
  | some c =>
    refine ⟨by simp, fun c2 _ _ => ⟨c, List.mem_of_find?_eq_some hc, by simp⟩⟩
  | none =>
    have hnone : ∀ c ∈ casks, ¬ equivTest c (normKey app.name) = true :=
      fun c hmem => by simpa using List.find?_eq_none.mp hc c hmem
    cases hf : formulae.find? (fun e => equivTest e (normKey app.name)) with
    | some f => exact ⟨by simp, fun c hmem ht => absurd ht (hnone c hmem)⟩
    | none => exact ⟨by simp [hbe], fun c hmem ht => absurd ht (hnone c hmem)⟩

/-- C1 witness: with cask catalog ["c"] and formula catalog ["c"], the app
named "c" receives the cask entry. -/
theorem C1_witness :
    appC.is_brew = false ∧ appC.has_brew_equivalent = none ∧ appC.brew_equivalent = none
    ∧ ((check_brew_equivalent_one [[99]] [[99]] appC).brew_equivalent
        = ((([[99]] : List Name).find? (fun e => equivTest e (normKey appC.name))).or
           (([[99]] : List Name).find? (fun e => equivTest e (normKey appC.name))))
      ∧ (∀ c ∈ ([[99]] : List Name), equivTest c (normKey appC.name) = true →
          ∃ c2 ∈ ([[99]] : List Name),
            (check_brew_equivalent_one [[99]] [[99]] appC).brew_equivalent = some c2)) :=
  ⟨rfl, rfl, rfl, C1_cask_before_formula [[99]] [[99]] appC rfl rfl rfl⟩

/-- C4: a non-owned app matching no entry of either catalog under the four
tests ends with the evaluated flag `False` (not the unevaluated state) and
no equivalent name. -/
theorem C4_no_match (casks formulae : List Name) (app : AppInfo)
    (hb : app.is_brew = false) (h0 : app.has_brew_equivalent = none)
    (hbe : app.brew_equivalent = none)
    (hno : ∀ e ∈ casks ++ formulae, equivTest e (normKey app.name) = false) :
    (check_brew_equivalent_one casks formulae app).has_brew_equivalent = some false
    ∧ (check_brew_equivalent_one casks formulae app).brew_equivalent = none := by
  have hcask : casks.find? (fun e => equivTest e (normKey app.name)) = none :=
    List.find?_eq_none.mpr fun e he => by
      simp [hno e (List.mem_append_left _ he)]
  have hform : formulae.find? (fun e => equivTest e (normKey app.name)) = none :=
    List.find?_eq_none.mpr fun e he => by
      simp [hno e (List.mem_append_right _ he)]
  rw [check_one_spec]
  simp [hb, h0, hbe, hcask, hform]

/-- C4 witness: the app "zz" matches nothing in catalogs ["q"] and []. -/
theorem C4_witness :
    appZ.is_brew = false ∧ appZ.has_brew_equivalent = none ∧ appZ.brew_equivalent = none
    ∧ (∀ e ∈ ([[113]] : List Name) ++ ([] : List Name),
        equivTest e (normKey appZ.name) = false)
    ∧ ((check_brew_equivalent_one [[113]] [] appZ).has_brew_equivalent = some false
      ∧ (check_brew_equivalent_one [[113]] [] appZ).brew_equivalent = none) :=
  ⟨rfl, rfl, rfl, by decide, C4_no_match [[113]] [] appZ rfl rfl rfl (by decide)⟩

/-- C9: whenever the equivalence pass sets an equivalent name on a record
that had none, the value is an element of the cask catalog or of the
formula catalog, spelled exactly as supplied. -/
theorem C9_equivalent_from_catalog (casks formulae : List Name) (app : AppInfo) (e : Name)
    (hbe : app.brew_equivalent = none)
    (h : (check_brew_equivalent_one casks formulae app).brew_equivalent = some e) :
    e ∈ casks ∨ e ∈ formulae := by
  rw [check_one_spec] at h
  by_cases hb : app.is_brew
  · rw [if_pos hb, hbe] at h
    exact absurd h (by simp)
  · rw [Bool.not_eq_true] at hb
    simp only [hb, if_false, Bool.false_eq_true] at h
    cases hc : casks.find? (fun x => equivTest x (normKey app.name)) with
    | some c =>
      rw [hc] at h
      simp only [Option.some.injEq] at h
      exact Or.inl (h ▸ List.mem_of_find?_eq_some hc)
    | none =>
      rw [hc] at h
      cases ht : truthy app.has_brew_equivalent with
      | true =>
        rw [ht, if_pos rfl, hbe] at h
        exact absurd h (by simp)
      | false =>
        simp only [ht, if_false, Bool.false_eq_true] at h
        cases hf : formulae.find? (fun x => equivTest x (normKey app.name)) with
        | some f =>
          rw [hf] at h
          simp only [Option.some.injEq] at h
          exact Or.inr (h ▸ List.mem_of_find?_eq_some hf)
        | none =>
          rw [hf, hbe] at h
          exact absurd h (by simp)

/-- C9 witness: with catalogs [] and ["zz-tool"], the app "zz" is assigned
the formula entry, which indeed lies in a catalog. -/
theorem C9_witness :
    appZ.brew_equivalent = none
    ∧ (check_brew_equivalent_one [] [[122, 122, 45, 116]] appZ).brew_equivalent
        = some [122, 122, 45, 116]
    ∧ ([122, 122, 45, 116] ∈ ([] : List Name)
        ∨ [122, 122, 45, 116] ∈ ([[122, 122, 45, 116]] : List Name)) :=
  ⟨rfl, by decide,
    C9_equivalent_from_catalog [] [[122, 122, 45, 116]] appZ [122, 122, 45, 116]
      rfl (by decide)⟩

/-- C10: a non-owned app whose name normalizes to the empty key matches the
first entry of a non-empty catalog through the containment test, so with at
least one non-empty catalog the record gets the flag `True` and a catalog
entry as its equivalent. -/
theorem C10_empty_key (casks formulae : List Name) (app : AppInfo)
    (hb : app.is_brew = false) (h0 : app.has_brew_equivalent = none)
    (hk : normKey app.name = []) (hne : casks ≠ [] ∨ formulae ≠ []) :
    (check_brew_equivalent_one casks formulae app).has_brew_equivalent = some true
    ∧ ∃ e, (check_brew_equivalent_one casks formulae app).brew_equivalent = some e
           ∧ (e ∈ casks ∨ e ∈ formulae) := by
  rw [check_one_spec]
  simp only [hb, if_false, Bool.false_eq_true, hk]
  cases casks with
  | cons c cs =>
    rw [find?_equivTest_nil]
    exact ⟨rfl, c, rfl, Or.inl (List.mem_cons_self c cs)⟩
  | nil =>
    have hf : formulae ≠ [] := by
      rcases hne with h | h
      · exact absurd rfl h
      · exact h
    cases formulae with
    | nil => exact absurd rfl hf
    | cons f fs =>
      rw [List.find?_nil]
      simp only [h0, truthy_none, if_false, Bool.false_eq_true]
      rw [find?_equivTest_nil]
      exact ⟨rfl, f, rfl, Or.inr (List.mem_cons_self f fs)⟩

/-- C10 witness: the empty-named app against catalogs ["q"] and []. -/
theorem C10_witness :
    appE.is_brew = false ∧ appE.has_brew_equivalent = none
    ∧ normKey appE.name = [] ∧ (([[113]] : List Name) ≠ [] ∨ ([] : List Name) ≠ [])
    ∧ ((check_brew_equivalent_one [[113]] [] appE).has_brew_equivalent = some true
      ∧ ∃ e, (check_brew_equivalent_one [[113]] [] appE).brew_equivalent = some e
             ∧ (e ∈ ([[113]] : List Name) ∨ e ∈ ([] : List Name))) :=
  ⟨rfl, rfl, rfl, Or.inl (by decide),
    C10_empty_key [[113]] [] appE rfl rfl rfl (Or.inl (by decide))⟩

/-- ASCII lowercasing of a code point is idempotent. -/
theorem lowerCp_idem (c : Nat) : lowerCp (lowerCp c) = lowerCp c := by
  unfold lowerCp
  split
  · split <;> omega
  · rfl

/-- The charwise normalization step (lowercase, then space to hyphen) is
idempotent. -/
theorem norm_cp_idem (c : Nat) :
    (if lowerCp (if lowerCp c == 32 then 45 else lowerCp c) == 32 then 45
     else lowerCp (if lowerCp c == 32 then 45 else lowerCp c))
      = (if lowerCp c == 32 then 45 else lowerCp c) := by
  have h45 : lowerCp 45 = 45 := by decide
  by_cases h32 : (lowerCp c == 32) = true
  · simp [h32, h45]
  · rw [Bool.not_eq_true] at h32
    simp [h32, lowerCp_idem]

/-- Unfolding of the normalized key on a cons cell. -/
theorem normKey_cons (c : Nat) (m : Name) :
    normKey (c :: m) = (if lowerCp c == 32 then 45 else lowerCp c) :: normKey m := rfl

/-- The normalized key is a fixed point of normalization. -/
theorem normKey_idem (n : Name) : normKey (normKey n) = normKey n := by
  induction n with
  | nil => rfl
  | cons c rest ih => rw [normKey_cons, normKey_cons, ih, norm_cp_idem]

/-- C8: normalization (lowercase, then replace spaces by hyphens) is a pure
function of its input — equal inputs give equal keys — and applying it to an
already-normalized key returns that key unchanged. -/
theorem C8_normalize_pure_idempotent :
    (∀ n : Name, normKey (normKey n) = normKey n)
    ∧ (∀ n m : Name, n = m → normKey n = normKey m) :=
  ⟨normKey_idem, fun _ _ h => h ▸ rfl⟩

/-- C8 witness: the name "Ab C". -/
theorem C8_witness :
    normKey (normKey [65, 98, 32, 67]) = normKey [65, 98, 32, 67]
    ∧ normKey [65, 98, 32, 67] = normKey [65, 98, 32, 67] :=
  ⟨C8_normalize_pure_idempotent.1 [65, 98, 32, 67],
   C8_normalize_pure_idempotent.2 [65, 98, 32, 67] [65, 98, 32, 67] rfl⟩

/-- The equivalence pass establishes the invariant on any freshly
discovered record. -/
theorem check_one_invariant (casks formulae : List Name) (app : AppInfo)
    (h0 : app.has_brew_equivalent = none) (hbe : app.brew_equivalent = none)
    (hbt : app.brew_type.isSome = app.is_brew) :
    invariantB (check_brew_equivalent_one casks formulae app) = true := by
  rw [check_one_spec]
  by_cases hb : app.is_brew
  · simp [hb, invariantB, h0, hbe, hbt]
  · rw [Bool.not_eq_true] at hb
    rw [hb] at hbt
    simp only [hb, if_false, Bool.false_eq_true]
    cases hc : casks.find? (fun e => equivTest e (normKey app.name)) with
    | some c => simp [invariantB, hbt, hb]
    | none =>
      simp only [h0, truthy_none, if_false, Bool.false_eq_true]
      cases hf : formulae.find? (fun e => equivTest e (normKey app.name)) with
      | some f => simp [invariantB, hbt, hb]
      | none => simp [invariantB, hbt, hb, hbe]

/-- C3: every record of a completed scan — macOS or Linux — satisfies the
data-model invariant: `brew_type` is set iff `is_brew`, `brew_equivalent`
is set iff `has_brew_equivalent` is `True`, and no record is both owned
and carrying an equivalent. -/
theorem C3_record_invariants :
    ∀ (casks formulae : List Name) (dir1 : Name) (items1 : List Name)
      (dir2 : Name) (items2 : List Name),
    (scan_macos casks formulae dir1 items1).all invariantB = true
    ∧ (scan_linux casks formulae dir2 items2).all invariantB = true := by
  intro casks formulae d1 i1 d2 i2
  constructor
  · rw [scan_macos, check_equiv_eq_map, List.all_eq_true]
    intro r hr
    rw [List.mem_map] at hr
    obtain ⟨a, ha, rfl⟩ := hr
    obtain ⟨h0, hbe, _, hbt⟩ := mem_get_macos casks d1 i1 a ha
    refine check_one_invariant casks formulae a h0 hbe ?_
    rw [hbt]
    by_cases h : a.is_brew <;> simp [h]
  · rw [scan_linux, check_equiv_eq_map, List.all_eq_true]
    intro r hr
    rw [List.mem_map] at hr
    obtain ⟨a, ha, rfl⟩ := hr
    obtain ⟨h0, hbe, _, hbt⟩ := mem_get_linux formulae d2 i2 a ha
    refine check_one_invariant casks formulae a h0 hbe ?_
    rw [hbt]
    by_cases h : a.is_brew <;> simp [h]

/-- C5: the exported totals split the records into owned plus non-owned,
and the equivalence count — which counts exactly the non-owned records with
the flag `True` — never exceeds the non-owned count. -/
theorem C5_count_identities :
    ∀ (ts : Name) (apps : List AppInfo),
    (export_to_json ts apps).total_apps
      = (apps.filter (fun a => a.is_brew)).length
        + (apps.filter (fun a => !a.is_brew)).length
    ∧ (export_to_json ts apps).has_brew_equivalent
        ≤ (apps.filter (fun a => !a.is_brew)).length
    ∧ (export_to_json ts apps).has_brew_equivalent
        = (apps.filter (fun a => !a.is_brew
            && (a.has_brew_equivalent == some true))).length := by
  intro ts apps
  refine ⟨?_, ?_, ?_⟩
  · simp only [export_to_json]
    induction apps with
    | nil => rfl
    | cons a rest ih =>
      by_cases h : a.is_brew <;> simp [List.filter_cons, h, ih] <;> omega
  · simp only [export_to_json]
    induction apps with
    | nil => simp
    | cons a rest ih =>
      by_cases h : a.is_brew
      · simpa [List.filter_cons, h] using ih
      · by_cases h2 : truthy a.has_brew_equivalent = true <;>
          simp [List.filter_cons, h, h2] <;> omega
  · have ht : ∀ x : Option Bool, truthy x = (x == some true) := by
      intro x
      cases x with
      | none => rfl
      | some b => cases b <;> rfl
    simp only [export_to_json, ht]

/-- C6: the aggregation applies the per-app classifier to every record
independently and hands the exporter the full classified list in the
original input order — no record dropped, reordered, or filtered. -/
theorem C6_aggregation_pointwise :
    ∀ (casks formulae : List Name) (ts : Name) (apps : List AppInfo),
    (export_to_json ts (check_brew_equivalents casks formulae apps)).applications
      = apps.map (check_brew_equivalent_one casks formulae)
    ∧ (export_to_json ts (check_brew_equivalents casks formulae apps)).applications.length
      = apps.length := by
  intro casks formulae ts apps
  refine ⟨?_, ?_⟩ <;> simp [export_to_json, check_equiv_eq_map]

/-- The equivalence pass never changes the name, ownership flag, or
ownership category of a record. -/
theorem check_one_preserves (casks formulae : List Name) (app : AppInfo) :
    (check_brew_equivalent_one casks formulae app).name = app.name
    ∧ (check_brew_equivalent_one casks formulae app).is_brew = app.is_brew
    ∧ (check_brew_equivalent_one casks formulae app).brew_type = app.brew_type := by
  rw [check_one_spec]
  by_cases hb : app.is_brew
  · simp [hb]
  · rw [Bool.not_eq_true] at hb
    simp only [hb, if_false, Bool.false_eq_true]
    cases hc : casks.find? (fun e => equivTest e (normKey app.name)) with
    | some c => exact ⟨rfl, rfl, rfl⟩
    | none =>
      cases ht : truthy app.has_brew_equivalent with
      | true => simp [ht, hb]
      | false =>
        simp only [ht, if_false, Bool.false_eq_true]
        cases hf : formulae.find? (fun e => equivTest e (normKey app.name)) with
        | some f => exact ⟨rfl, rfl, rfl⟩
        | none => exact ⟨rfl, rfl, rfl⟩

/-- C2 counterexample: the Linux discovery path checks only exact lowercase
equality against the formula catalog, not the three tests.  With formula
catalog ["foo-bar"] and desktop entry "foobar.desktop", the catalog entry
equals the app name after removing hyphens from both sides (the claim's
test 2), yet the record is classified as not manager-owned. -/
theorem C2_counterexample :
    ((get_applications_linux [[102, 111, 111, 45, 98, 97, 114]] []
        [[102, 111, 111, 98, 97, 114, 46, 100, 101, 115, 107, 116, 111, 112]]).map
          (fun a => a.is_brew)) = [false]
    ∧ stripHyphens (pyLower [102, 111, 111, 45, 98, 97, 114])
        = stripHyphens (pyLower [102, 111, 111, 98, 97, 114])
    ∧ ((get_applications_linux [[102, 111, 111, 45, 98, 97, 114]] []
        [[102, 111, 111, 98, 97, 114, 46, 100, 101, 115, 107, 116, 111, 112]]).map
          (fun a => a.name)) = [[102, 111, 111, 98, 97, 114]] := by decide

/-- C2 amended: ownership is decided per origin category with different
tests — macOS (cask origin) applies the three alternative equality tests
against the cask catalog, while Linux (formula origin) applies only exact
lowercase equality against the formula catalog; in both categories, an app
whose name exactly equals a catalog entry of its origin category
case-insensitively is classified owned with that category (`cask` on
macOS, `formula` on Linux), and owned records leave the equivalence pass
with `has_brew_equivalent` and `brew_equivalent` unset. -/
theorem C2_amended_ownership :
    (∀ (casks : List Name) (dir : Name) (items : List Name),
      (get_applications_macos casks dir items).all
        (fun r => r.is_brew == casks.any (fun cask => ownedTest cask (pyLower r.name)))
        = true)
    ∧ (∀ (formulae : List Name) (dir : Name) (items : List Name),
      (get_applications_linux formulae dir items).all
        (fun r => r.is_brew == (formulae.map pyLower).contains (pyLower r.name)) = true)
    ∧ (∀ (casks formulae : List Name) (dir : Name) (items : List Name),
      (scan_macos casks formulae dir items).all
        (fun r => !(casks.any (fun cask => pyLower cask == pyLower r.name))
                  || (r.is_brew && r.brew_type == some BrewType.cask
                      && r.has_brew_equivalent == none
                      && r.brew_equivalent == none)) = true)
    ∧ (∀ (casks formulae : List Name) (dir : Name) (items : List Name),
      (scan_linux casks formulae dir items).all
        (fun r => !(formulae.any (fun f => pyLower f == pyLower r.name))
                  || (r.is_brew && r.brew_type == some BrewType.formula
                      && r.has_brew_equivalent == none
                      && r.brew_equivalent == none)) = true) := by
  refine ⟨?_, ?_, ?_, ?_⟩
  · intro casks dir items
    rw [List.all_eq_true]
    intro r hr
    obtain ⟨_, _, hib, _⟩ := mem_get_macos casks dir items r hr
    simp [hib]
  · intro formulae dir items
    rw [List.all_eq_true]
    intro r hr
    obtain ⟨_, _, hib, _⟩ := mem_get_linux formulae dir items r hr
    simp [hib]
  · intro casks formulae dir items
    rw [scan_macos, check_equiv_eq_map, List.all_eq_true]
    intro r hr
    rw [List.mem_map] at hr
    obtain ⟨a, ha, rfl⟩ := hr
    obtain ⟨h0, hbe, hib, hbt⟩ := mem_get_macos casks dir items a ha
    obtain ⟨hname, _, _⟩ := check_one_preserves casks formulae a
    by_cases hexact : casks.any (fun cask => pyLower cask == pyLower a.name) = true
    · have howned : a.is_brew = true := by
        rw [hib, List.any_eq_true]
        rw [List.any_eq_true] at hexact
        obtain ⟨cask, hc, he⟩ := hexact
        exact ⟨cask, hc, by simp [ownedTest, he]⟩
      rw [check_one_of_brew casks formulae a howned]
      rw [howned] at hbt
      simp [howned, h0, hbe, hbt]
    · rw [Bool.not_eq_true] at hexact
      rw [hname, hexact]
      simp
  · intro casks formulae dir items
    rw [scan_linux, check_equiv_eq_map, List.all_eq_true]
    intro r hr
    rw [List.mem_map] at hr
    obtain ⟨a, ha, rfl⟩ := hr
    obtain ⟨h0, hbe, hib, hbt⟩ := mem_get_linux formulae dir items a ha
    obtain ⟨hname, _, _⟩ := check_one_preserves casks formulae a
    by_cases hexact : formulae.any (fun f => pyLower f == pyLower a.name) = true
    · have howned : a.is_brew = true := by
        rw [hib]
        rw [List.any_eq_true] at hexact
        obtain ⟨f, hfmem, he⟩ := hexact
        rw [beq_iff_eq] at he
        have hm : pyLower a.name ∈ formulae.map pyLower :=
          List.mem_map.mpr ⟨f, hfmem, he⟩
        simpa [List.contains, List.elem_eq_mem] using hm
      rw [check_one_of_brew casks formulae a howned]
      rw [howned] at hbt
      simp [howned, h0, hbe, hbt]
    · rw [Bool.not_eq_true] at hexact
      rw [hname, hexact]
      simp

/-- macOS discovery keeps exactly the `.app` entries, in order: dropping
the non-matching items first changes nothing, and the record count equals
the count of `.app` items. -/
theorem filterMap_if_guard {α β : Type} (p : α → Bool) (g : α → β) (l : List α) :
    l.filterMap (fun a => if p a then some (g a) else none)
      = (l.filter p).map g := by
  induction l with
  | nil => rfl
  | cons a rest ih =>
    by_cases h : p a = true <;> simp [List.filter_cons, List.filterMap_cons, h, ih]

/-- macOS discovery as a filter followed by a map. -/
theorem get_macos_eq_map (casks : List Name) (dir : Name) (items : List Name) :
    get_applications_macos casks dir items
      = (items.filter (fun i => dotApp.isSuffixOf i)).map (macAppOf casks dir) :=
  filterMap_if_guard (fun i => dotApp.isSuffixOf i) (macAppOf casks dir) items

theorem get_macos_filter (casks : List Name) (dir : Name) (items : List Name) :
    get_applications_macos casks dir items
      = get_applications_macos casks dir (items.filter (fun i => dotApp.isSuffixOf i))
    ∧ (get_applications_macos casks dir items).length
      = (items.filter (fun i => dotApp.isSuffixOf i)).length := by
  constructor
  · rw [get_macos_eq_map, get_macos_eq_map, List.filter_filter]
    simp
  · rw [get_macos_eq_map, List.length_map]

/-- C7 counterexample: the scanner neither reports a skipped-entry count
nor excludes every malformed entry.  A listing item "r" (no `.app` suffix)
is dropped with no trace — the export is identical to that of an empty
listing, and the export record has no skipped field at all — while the
bare item ".app", whose name is empty, is not excluded: it is classified
and counted in the totals. -/
theorem C7_counterexample :
    export_to_json [] (scan_macos [] [] [] [[114]])
      = export_to_json [] (scan_macos [] [] [] [])
    ∧ (export_to_json [] (scan_macos [] [] [] [[46, 97, 112, 112]])).total_apps = 1
    ∧ ((get_applications_macos [] [] [[46, 97, 112, 112]]).map (fun a => a.name))
      = [[]] := by decide

/-- C7 amended: raw entries without the `.app` suffix are excluded from
classification and contribute nothing to any exported count, but they are
dropped silently — the report of a listing equals the report of the
listing with those entries already removed, and no skipped-entry count
exists in the export. -/
theorem C7_amended_silent_skip :
    ∀ (casks formulae : List Name) (ts dir : Name) (items : List Name),
    (get_applications_macos casks dir items).length
      = (items.filter (fun i => dotApp.isSuffixOf i)).length
    ∧ export_to_json ts (scan_macos casks formulae dir items)
      = export_to_json ts
          (scan_macos casks formulae dir (items.filter (fun i => dotApp.isSuffixOf i))) := by
  intro casks formulae ts dir items
  refine ⟨(get_macos_filter casks dir items).2, ?_⟩
  rw [scan_macos, scan_macos, (get_macos_filter casks dir items).1]
